import Mathlib

/-!
Shallow embedding of the transaction-to-notification pipeline of
`src/app.py` (Solana wallet tracking bot webhook service).

Text is modelled as `List Char`.  The Python regex substitution
`re.sub(r'[A-Za-z0-9]{32,44}', format_wallet_address, text)` is modelled by
`redact_all_addresses`: the regex engine scans left to right; inside a maximal
alphanumeric run of length `L` it matches greedily `min 44 L` characters
whenever `L ≥ 32`, replaces them by `first4 ++ "..." ++ last4`, and resumes
scanning right after the match; runs shorter than 32 are left untouched.
Recursive text functions are written with an explicit fuel argument equal to
the input length so that they are structurally recursive and evaluate in the
kernel; wrappers instantiate the fuel with the exact list length.

External effects (MongoDB, Telegram, Helius metadata API, image fetching) are
modelled at their call boundary: the database is an explicit value, network
lookups are oracle function parameters, and the transport is modelled by the
trace of actions (`Act`) the code performs.
-/

namespace BullxBot

/-- Text is a list of characters. -/
abbrev Text := List Char

/-- Character class of the Python regex `[A-Za-z0-9]`. -/
def isAlnumChar (c : Char) : Bool :=
  decide (('A' ≤ c ∧ c ≤ 'Z') ∨ ('a' ≤ c ∧ c ≤ 'z') ∨ ('0' ≤ c ∧ c ≤ '9'))

/-- Last `n` characters of a text (Python `s[-n:]` for non-empty `s`). -/
def lastN (n : Nat) (l : Text) : Text := l.drop (l.length - n)

/-- Abbreviation of one regex match, from `format_wallet_address`
(src/app.py lines 118-124): first 4 characters, `"..."`, last 4 characters. -/
def format_wallet_address (m : Text) : Text :=
  m.take 4 ++ ("...").data ++ lastN 4 m

/-- Fuelled chunking of one maximal alphanumeric run, mirroring how the regex
engine consumes a run: while at least 32 characters remain, greedily match
`min 44 L` of them and abbreviate; a remainder shorter than 32 stays. -/
def redactRunGo : Nat → Text → Text
  | 0, m => m
  | fuel + 1, m =>
    if 32 ≤ m.length then
      format_wallet_address (m.take (min 44 m.length)) ++
        redactRunGo fuel (m.drop (min 44 m.length))
    else m

/-- Chunking of one maximal alphanumeric run (exact-length fuel). -/
def redactRun (m : Text) : Text := redactRunGo m.length m

/-- Fuelled scan of the whole text for the substitution
`re.sub(r'[A-Za-z0-9]{32,44}', format_wallet_address, text)`. -/
def redactGo : Nat → Text → Text
  | 0, t => t
  | fuel + 1, t =>
    match t with
    | [] => []
    | c :: cs =>
      if isAlnumChar c then
        redactRun ((c :: cs).takeWhile isAlnumChar) ++
          redactGo fuel ((c :: cs).dropWhile isAlnumChar)
      else c :: redactGo fuel cs

/-- The generic address redaction pass of src/app.py line 330. -/
def redact_all_addresses (t : Text) : Text := redactGo t.length t

/-- Whether the text contains `k` consecutive alphanumeric characters
somewhere (used to classify inputs of the redaction pass). -/
def hasRunGe (k : Nat) : Text → Bool
  | [] => false
  | c :: cs => decide (k ≤ ((c :: cs).takeWhile isAlnumChar).length) || hasRunGe k cs

/-- Fuelled Python `str.replace`: replace all non-overlapping occurrences of
`pat` (non-empty) left to right. -/
def replaceAllGo (pat repl : Text) : Nat → Text → Text
  | 0, t => t
  | fuel + 1, t =>
    match t with
    | [] => []
    | c :: cs =>
      if pat.isPrefixOf (c :: cs) then
        repl ++ replaceAllGo pat repl fuel ((c :: cs).drop pat.length)
      else c :: replaceAllGo pat repl fuel cs

/-- Python `str.replace(pat, repl)` for non-empty `pat` (the only way the
source uses it; the empty-pattern edge case of Python is not exercised). -/
def replaceAll (pat repl t : Text) : Text :=
  if pat = [] then t else replaceAllGo pat repl t.length t

/-- Python substring containment `pat in t`: some occurrence of `pat` starts
at some suffix of `t`. -/
def containsSub (pat : Text) : Text → Bool
  | [] => pat.isPrefixOf []
  | c :: cs => pat.isPrefixOf (c :: cs) || containsSub pat cs

/-- Token metadata returned by `get_token_info` (src/app.py lines 59-73):
the dict it builds always carries `symbol`, `name` and `decimals`. -/
structure TokenInfo where
  symbol : Text
  name : Text
  decimals : Int
deriving DecidableEq

/-- One entry of the event's `tokenTransfers` array.  Every field may be
absent in the untrusted payload, hence `Option`.  `tokenAmount` is modelled
as a rational (the Python `float(...)` conversion is not modelled beyond its
numeric value). -/
structure Transfer where
  mint : Option Text
  tokenStandard : Option Text
  symbol : Option Text
  fromUserAccount : Option Text
  toUserAccount : Option Text
  tokenAmount : Option ℚ
deriving DecidableEq

/-- One entry of the event's `instructions` array; its `accounts` list may be
absent. -/
structure Instr where
  accounts : Option (List Text)
deriving DecidableEq

/-- The single element of the webhook payload array (TransactionEvent).  All
keys may be absent: `none` models a missing key, mirroring that the payload
is untrusted. -/
structure Event where
  type : Option Text
  signature : Option Text
  source : Option Text
  description : Option Text
  instructions : Option (List Instr)
  tokenTransfers : Option (List Transfer)
deriving DecidableEq

/-- A document of the `wallets` Mongo collection (WalletRecord). -/
structure WalletRec where
  user_id : Text
  address : Text
  name : Option Text
  status : Text
deriving DecidableEq

/-- A document of the `users` Mongo collection. -/
structure UserRec where
  user_id : Text
  plan : Text
deriving DecidableEq

/-- The database state visible to the pipeline: the `wallets` and `users`
collections. -/
structure DB where
  wallets : List WalletRec
  users : List UserRec
deriving DecidableEq

/-- One element of the list built by `create_message` (RecipientMessage). -/
structure Msg where
  user : Text
  text : Text
  image : Text
  priority : Bool
deriving DecidableEq

/-- Accumulator of `process_token_transfers` (src/app.py lines 200-232). -/
structure TokenData where
  amount_in : ℚ
  amount_out : ℚ
  token_in : Option TokenInfo
  token_out : Option TokenInfo
  usd_value : ℚ
deriving DecidableEq

/-- A direct Python dictionary access `d['k']`: raises (modelled as
`Except.error ()`) when the key is absent. -/
def req {α : Type} : Option α → Except Unit α
  | some a => Except.ok a
  | none => Except.error ()

/-- Body of `process_token_transfers` (src/app.py lines 200-232) for one
transfer, updating the accumulator.  `ti` and `tp` are the external
`get_token_info` / `get_token_price` lookups (network calls, modelled as
oracles).  In the source the whole function is wrapped in a broad
`try/except` returning `None`; in this typed model no branch can raise, so
the wrapper below always returns `some`. -/
def processOneTransfer (ti : Text → Option TokenInfo) (tp : Text → Option ℚ)
    (tx_type : Text) (acc : TokenData) (t : Transfer) : TokenData :=
  let amount := t.tokenAmount.getD 0
  match ti (t.mint.getD []) with
  | none => acc
  | some info =>
    if t.tokenStandard == some ("Fungible").data then
      let acc :=
        match tp (t.mint.getD []) with
        | some price => { acc with usd_value := acc.usd_value + amount * price }
        | none => acc
      -- the source guards on `'symbol' in token_info`, which is always true
      -- for the dict `get_token_info` builds
      if tx_type = ("SWAP").data then
        match acc.token_in with
        | none => { acc with token_in := some info, amount_in := amount }
        | some _ => { acc with token_out := some info, amount_out := amount }
      else acc
    else acc

/-- `process_token_transfers(transfers, tx_type)` (src/app.py lines 200-232). -/
def process_token_transfers (ti : Text → Option TokenInfo) (tp : Text → Option ℚ)
    (transfers : List Transfer) (tx_type : Text) : Option TokenData :=
  some (transfers.foldl (processOneTransfer ti tp tx_type)
    { amount_in := 0, amount_out := 0, token_in := none, token_out := none,
      usd_value := 0 })

/-- The transaction-type dispatch of `create_message` (src/app.py lines
247-288), producing the message body before the navigation footer.
`fmtNum` abstracts the float formatting of `format_number` (src/app.py
lines 48-57), whose decimal rendering is outside the embedding.  Direct
payload accesses (`data[0]['tokenTransfers']`, `[0]` indexing) are `req`. -/
def renderBody (fmtNum : ℚ → Text) (e : Event) (tx_type source description : Text)
    (token_data : Option TokenData) : Except Unit Text :=
  if tx_type = ("SWAP").data then
    let base := if source = ("RAYDIUM").data then ("🔴 SELL ").data else ("🟢 BUY ").data
    match token_data with
    | some td =>
      match td.token_in, td.token_out with
      | some tin, some tout => do
        let msg := base ++ tin.symbol ++ (" on ").data ++ source ++ ("\n\n").data
          ++ ("🔹 Amount: ").data ++ fmtNum td.amount_in ++ (" ").data ++ tin.symbol
        let msg := if 0 < td.usd_value then
            msg ++ (" ($").data ++ fmtNum td.usd_value ++ (")").data
          else msg
        let msg := msg ++ ("\n🔹 For: ").data ++ fmtNum td.amount_out
          ++ (" ").data ++ tout.symbol
        let tts ← req e.tokenTransfers
        let t0 ← req tts.head?
        let token_mint := t0.mint.getD []
        pure (if token_mint = [] then msg else
          msg ++ ("\n\n🔗 Links:\n• [Birdeye](https://birdeye.so/token/").data
            ++ token_mint
            ++ (")\n• [DexScreener](https://dexscreener.com/solana/").data
            ++ token_mint
            ++ (")\n• [Solscan](https://solscan.io/token/").data
            ++ token_mint ++ (")").data)
      | _, _ => pure base
    | none => pure base
  else if tx_type = ("NFT SALE").data ∨ tx_type = ("NFT PURCHASE").data then do
    let tts ← req e.tokenTransfers
    let sa := tts.foldl (fun (p : Text × ℚ) t =>
        if t.tokenStandard == some ("NonFungible").data then (t.symbol.getD [], p.2)
        else if t.tokenStandard == some ("Fungible").data then (p.1, t.tokenAmount.getD 0)
        else p) ([], 0)
    pure ((if tx_type = ("NFT SALE").data then ("🔴 SOLD ").data else ("🟢 BOUGHT ").data)
      ++ sa.1 ++ (" on ").data ++ source ++ ("\n💰 Price: ").data
      ++ fmtNum sa.2 ++ (" SOL").data)
  else
    pure (("*").data ++ tx_type ++ ("* on ").data ++ source ++ ("\n\n").data
      ++ (if description = [] then [] else description))

/-- The navigation footer appended to every message (src/app.py line 291). -/
def footer (tx : Text) : Text :=
  ("\n\n[XRAY](https://xray.helius.xyz/tx/").data ++ tx
    ++ (") | [Solscan](https://solscan.io/tx/").data ++ tx ++ (")").data

/-- The candidate-account computation of `create_message` (src/app.py lines
293-302): extends with every instruction's `accounts` (direct key access),
then, when `data[0]['tokenTransfers']` (direct key access) is non-empty,
appends each transfer's `fromUserAccount`/`toUserAccount` (direct accesses)
and deduplicates via `list(set(...))`. -/
def touchedAccounts_code (e : Event) : Except Unit (List Text) := do
  let instrs ← req e.instructions
  let accounts ← instrs.foldlM (fun (acc : List Text) i => do
      let a ← req i.accounts
      pure (acc ++ a)) []
  let tts ← req e.tokenTransfers
  if tts ≠ [] then do
    let accounts ← tts.foldlM (fun (acc : List Text) t => do
        let f ← req t.fromUserAccount
        let g ← req t.toUserAccount
        pure (acc ++ [f, g])) accounts
    pure accounts.dedup
  else
    pure accounts

/-- Modelled from the spec (§4.3), not from the source, for comparison with
`touchedAccounts_code`: the deduplicated union of every `accounts` array
across all `instructions` plus every `fromUserAccount`/`toUserAccount`
across `tokenTransfers`, tolerating absence of any of these fields. -/
def touchedAccounts_spec (e : Event) : List Text :=
  (((e.instructions.getD []).map (fun i => i.accounts.getD [])).flatten ++
    ((e.tokenTransfers.getD []).map (fun t =>
      t.fromUserAccount.toList ++ t.toUserAccount.toList)).flatten).dedup

/-- Display label of a wallet (src/app.py line 323): the custom `name` if
present, else the abbreviated address. -/
def wLabel (w : WalletRec) : Text :=
  w.name.getD (w.address.take 4 ++ ("...").data ++ lastN 4 w.address)

/-- The per-recipient wallet-labelling loop of `create_message` (src/app.py
lines 321-327): for each matched wallet whose address occurs in the current
text, replace every occurrence of the address with `*label*`. -/
def personalize (message : Text) (user_wallets : List WalletRec) : Text :=
  user_wallets.foldl (fun msg w =>
    if containsSub w.address msg then
      replaceAll w.address (("*").data ++ wLabel w ++ ("*").data) msg
    else msg) message

/-- The recipient fan-out of `create_message` (src/app.py lines 306-337):
active wallets whose address is among the candidate accounts, distinct
user ids, and one personalized-and-redacted message per distinct user with
the premium flag looked up in the `users` collection. -/
def mkMessages (db : DB) (image message : Text) (accounts : List Text) : List Msg :=
  let found_docs := db.wallets.filter (fun w =>
    accounts.contains w.address && w.status == ("active").data)
  let found_users := (found_docs.map (fun w => w.user_id)).dedup
  found_users.map (fun u =>
    let user_wallets := found_docs.filter (fun w => w.user_id == u)
    { user := u,
      text := redact_all_addresses (personalize message user_wallets),
      image := image,
      priority := db.users.any (fun r =>
        r.user_id == u && r.plan == ("premium").data) })

/-- Field extraction, message rendering and the candidate-account
computation of `create_message` (src/app.py lines 238-302) for the first
payload element, none of which touches the database.  Returns the canonical
message (body plus footer) and the candidate accounts.  `ti`/`tp` are the
`get_token_info`/`get_token_price` network oracles. -/
def create_message_event (ti : Text → Option TokenInfo) (tp : Text → Option ℚ)
    (fmtNum : ℚ → Text) (e0 : Event) : Except Unit (Text × List Text) := do
  let ty ← req e0.type
  let tx_type := replaceAll ("_").data (" ").data ty
  let tx ← req e0.signature
  let source ← req e0.source
  let description ← req e0.description
  let token_data := process_token_transfers ti tp (e0.tokenTransfers.getD []) tx_type
  let body ← renderBody fmtNum e0 tx_type source description token_data
  let message := body ++ footer tx
  let accounts ← touchedAccounts_code e0
  pure (message, accounts)

/-- First half of the `try` block of `create_message` (src/app.py lines
234-302): the `data[0]` access (an IndexError on an empty array) followed by
the per-event computation. -/
def create_message_pre (ti : Text → Option TokenInfo) (tp : Text → Option ℚ)
    (fmtNum : ℚ → Text) (data : List Event) : Except Unit (Text × List Text) := do
  let e0 ← req data.head?
  create_message_event ti tp fmtNum e0

/-- Body of the `try` block of `create_message` (src/app.py lines 234-339):
the database-free prefix, then image resolution (`check_image`, src/app.py
lines 162-198, which catches all its own errors and returns a string, hence
the total oracle `imgOf`) and the fan-out over matched wallets. -/
def create_message_core (ti : Text → Option TokenInfo) (tp : Text → Option ℚ)
    (fmtNum : ℚ → Text) (imgOf : List Event → Text) (db : DB)
    (data : List Event) : Except Unit (List Msg) :=
  create_message_pre ti tp fmtNum data >>= (fun p =>
    Except.ok (mkMessages db (imgOf data) p.1 p.2))

/-- `create_message(data)` (src/app.py lines 234-343): any structural error
in the body is caught by the top-level `except`, which returns `[]`. -/
def create_message (ti : Text → Option TokenInfo) (tp : Text → Option ℚ)
    (fmtNum : ℚ → Text) (imgOf : List Event → Text) (db : DB)
    (data : List Event) : List Msg :=
  match create_message_core ti tp fmtNum imgOf db data with
  | Except.ok msgs => msgs
  | Except.error _ => []

/-- Observable actions of the delivery orchestrator: a persisted
MessageLogEntry, a photo transmission attempt, a plain-text transmission
attempt. -/
inductive Act where
  | store (u : Text) (text : Text) (priority : Bool) (sig ty : Text) : Act
  | sendPhoto (u : Text) (text : Text) (img : Text) : Act
  | sendText (u : Text) (text : Text) : Act
deriving DecidableEq

/-- `send_message_to_user` (src/app.py lines 75-86): transmits text; its own
errors are caught internally, so it never raises to the caller. -/
def send_message_to_user (u text : Text) : List Act := [Act.sendText u text]

/-- `send_image_to_user` (src/app.py lines 88-101): fetches and normalises
the image via `get_image` (which re-raises on failure, src/app.py lines
103-116) and transmits the photo; on any failure the `except` falls back to
`send_message_to_user` with the same text.  `fetchOk u img` (resp.
`photoOk u`) is the oracle for this recipient's fetch/normalise (resp.
photo transmission) outcome. -/
def send_image_to_user (fetchOk : Text → Text → Bool) (photoOk : Text → Bool)
    (u text img : Text) : List Act :=
  if fetchOk u img then
    Act.sendPhoto u text img ::
      (if photoOk u then [] else send_message_to_user u text)
  else send_message_to_user u text

/-- One iteration of the webhook fan-out loop (src/app.py lines 448-489).
The `db.messages.insert_one` store and the delivery attempt share a single
`try/except ... continue`, so a store failure (`storeOk m.user = false`)
aborts that recipient's iteration before any delivery; transport errors are
swallowed inside the send helpers and never reach this handler, so the
inner fallback at src/app.py lines 477-485 is unreachable. -/
def processOne (storeOk : Text → Bool) (fetchOk : Text → Text → Bool)
    (photoOk : Text → Bool) (sig ty : Text) (m : Msg) : List Act :=
  if storeOk m.user then
    Act.store m.user m.text m.priority sig ty ::
      (if m.image ≠ [] then send_image_to_user fetchOk photoOk m.user m.text m.image
       else send_message_to_user m.user m.text)
  else []

/-- The whole fan-out loop of `handle_webhook` (src/app.py lines 448-489):
recipients are processed independently, continuing past failures. -/
def processMessages (storeOk : Text → Bool) (fetchOk : Text → Text → Bool)
    (photoOk : Text → Bool) (sig ty : Text) (msgs : List Msg) : List Act :=
  msgs.flatMap (processOne storeOk fetchOk photoOk sig ty)

/-- `handle_webhook` (src/app.py lines 425-502): `none` models a non-JSON
body (rejected at `request.is_json`), `some []` a falsy payload (rejected at
`if not data`); otherwise messages are created and fanned out, and the
response is `200` with `messages_sent = len(messages)` regardless of
per-recipient outcomes.  The result is (status, messages_sent, trace). -/
def handle_webhook (ti : Text → Option TokenInfo) (tp : Text → Option ℚ)
    (fmtNum : ℚ → Text) (imgOf : List Event → Text) (db : DB)
    (storeOk : Text → Bool) (fetchOk : Text → Text → Bool) (photoOk : Text → Bool)
    (body : Option (List Event)) : Nat × Nat × List Act :=
  match body with
  | none => (400, 0, [])
  | some [] => (400, 0, [])
  | some (e0 :: rest) =>
    let msgs := create_message ti tp fmtNum imgOf db (e0 :: rest)
    (200, msgs.length,
      processMessages storeOk fetchOk photoOk
        (e0.signature.getD []) (e0.type.getD []) msgs)

/-- User of an observable action. -/
def actUser : Act → Text
  | Act.store u _ _ _ _ => u
  | Act.sendPhoto u _ _ => u
  | Act.sendText u _ => u

/-- Whether an action is a plain-text transmission. -/
def isSendTextAct : Act → Bool
  | Act.sendText _ _ => true
  | _ => false

/-- Whether an action is a photo transmission. -/
def isSendPhotoAct : Act → Bool
  | Act.sendPhoto _ _ _ => true
  | _ => false

/-- Whether an action reaches the transport (either kind of send). -/
def isSendAct (a : Act) : Bool := isSendTextAct a || isSendPhotoAct a

/-- Erase the priority flag recorded in a store action (identity on other
actions); used to compare traces up to the persisted premium flag. -/
def erasePriority : Act → Act
  | Act.store u t _ sig ty => Act.store u t false sig ty
  | a => a

/-- Erase the priority flag of a RecipientMessage; used to compare fan-out
results up to the premium flag. -/
def eraseMsgPriority (m : Msg) : Msg :=
  { m with priority := false }

/-- A text whose head, if any, is not alphanumeric; no alphanumeric run can
spill over from text concatenated on its left. -/
def runBreak (t : Text) : Prop := ∀ c cs, t = c :: cs → isAlnumChar c = false

lemma length_dropWhile_le (p : Char → Bool) (l : Text) :
    (l.dropWhile p).length ≤ l.length := by
  induction l with
  | nil => simp
  | cons c cs ih =>
    rw [List.dropWhile_cons]
    split
    · exact Nat.le_trans ih (Nat.le_succ _)
    · simp

lemma takeWhile_append_of_all {p : Char → Bool} :
    ∀ (A X : Text), (∀ x ∈ A, p x = true) →
      (A ++ X).takeWhile p = A ++ X.takeWhile p := by
  intro A
  induction A with
  | nil => intro X _; simp
  | cons a A ih =>
    intro X h
    have ha : p a = true := h a (by simp)
    simp only [List.cons_append, List.takeWhile_cons, ha, if_true]
    rw [ih X (fun x hx => h x (by simp [hx]))]

lemma takeWhile_append_of_break {p : Char → Bool} :
    ∀ (A : Text) (c : Char) (Y : Text), p c = false →
      (A ++ c :: Y).takeWhile p = A.takeWhile p := by
  intro A
  induction A with
  | nil => intro c Y h; simp [List.takeWhile_cons, h]
  | cons a A ih =>
    intro c Y h
    simp only [List.cons_append, List.takeWhile_cons]
    split
    · rw [ih c Y h]
    · rfl

lemma dropWhile_append_of_break {p : Char → Bool} :
    ∀ (A : Text) (c : Char) (Y : Text), p c = false →
      (A ++ c :: Y).dropWhile p = A.dropWhile p ++ c :: Y := by
  intro A
  induction A with
  | nil => intro c Y h; simp [List.dropWhile_cons, h]
  | cons a A ih =>
    intro c Y h
    simp only [List.cons_append, List.dropWhile_cons]
    split
    · exact ih c Y h
    · rfl

lemma takeWhile_eq_nil_of_runBreak {t : Text} (h : runBreak t) :
    t.takeWhile isAlnumChar = [] := by
  cases t with
  | nil => rfl
  | cons c cs => simp [List.takeWhile_cons, h c cs rfl]

lemma redactRunGo_nil : ∀ f, redactRunGo f [] = [] := by
  intro f; cases f <;> simp [redactRunGo]

lemma redactRunGo_fuel :
    ∀ f f' (m : Text), m.length ≤ f → m.length ≤ f' →
      redactRunGo f m = redactRunGo f' m := by
  intro f
  induction f with
  | zero =>
    intro f' m h _
    have : m = [] := List.length_eq_zero.mp (Nat.le_zero.mp h)
    subst this
    rw [redactRunGo_nil, redactRunGo_nil]
  | succ g ih =>
    intro f' m h h'
    cases f' with
    | zero =>
      have : m = [] := List.length_eq_zero.mp (Nat.le_zero.mp h')
      subst this
      rw [redactRunGo_nil, redactRunGo_nil]
    | succ g' =>
      simp only [redactRunGo]
      split
      · rename_i h32
        have hk : 32 ≤ min 44 m.length := le_min (by norm_num) h32
        have hd : (m.drop (min 44 m.length)).length = m.length - min 44 m.length :=
          List.length_drop _ _
        congr 1
        exact ih g' _ (by omega) (by omega)
      · rfl

lemma redactRunGo_eq (f : Nat) (m : Text) (h : m.length ≤ f) :
    redactRunGo f m = redactRun m :=
  redactRunGo_fuel f m.length m h le_rfl

lemma redactGo_fuel :
    ∀ f f' (t : Text), t.length ≤ f → t.length ≤ f' →
      redactGo f t = redactGo f' t := by
  intro f
  induction f with
  | zero =>
    intro f' t h _
    have : t = [] := List.length_eq_zero.mp (Nat.le_zero.mp h)
    subst this
    cases f' <;> simp [redactGo]
  | succ g ih =>
    intro f' t h h'
    cases f' with
    | zero =>
      have : t = [] := List.length_eq_zero.mp (Nat.le_zero.mp h')
      subst this
      simp [redactGo]
    | succ g' =>
      cases t with
      | nil => simp [redactGo]
      | cons c cs =>
        simp only [redactGo]
        split
        · rename_i hc
          congr 1
          have hd : ((c :: cs).dropWhile isAlnumChar).length ≤ cs.length := by
            rw [List.dropWhile_cons, if_pos hc]
            exact length_dropWhile_le _ _
          have hl : cs.length + 1 ≤ g + 1 := h
          have hl' : cs.length + 1 ≤ g' + 1 := h'
          exact ih g' _ (by omega) (by omega)
        · congr 1
          have hl : cs.length + 1 ≤ g + 1 := h
          have hl' : cs.length + 1 ≤ g' + 1 := h'
          exact ih g' cs (by omega) (by omega)

lemma redactGo_eq (f : Nat) (t : Text) (h : t.length ≤ f) :
    redactGo f t = redact_all_addresses t :=
  redactGo_fuel f t.length t h le_rfl

lemma redact_nil : redact_all_addresses [] = [] := rfl

lemma redact_cons_not {c : Char} (cs : Text) (h : isAlnumChar c = false) :
    redact_all_addresses (c :: cs) = c :: redact_all_addresses cs := by
  show redactGo (cs.length + 1) (c :: cs) = _
  simp only [redactGo, h, Bool.false_eq_true, if_false]
  rw [redactGo_eq cs.length cs le_rfl]

lemma redact_cons_alnum {c : Char} (cs : Text) (h : isAlnumChar c = true) :
    redact_all_addresses (c :: cs) =
      redactRun ((c :: cs).takeWhile isAlnumChar) ++
        redact_all_addresses ((c :: cs).dropWhile isAlnumChar) := by
  show redactGo (cs.length + 1) (c :: cs) = _
  simp only [redactGo, h, if_true]
  congr 1
  have hd : ((c :: cs).dropWhile isAlnumChar).length ≤ cs.length := by
    rw [List.dropWhile_cons, if_pos h]
    exact length_dropWhile_le _ _
  exact redactGo_eq cs.length _ hd

lemma redactRun_small {m : Text} (h : m.length < 32) : redactRun m = m := by
  cases m with
  | nil => rfl
  | cons a l =>
    show redactRunGo (l.length + 1) (a :: l) = a :: l
    simp only [redactRunGo]
    rw [if_neg]
    omega

lemma redactRun_exact {m : Text} (h32 : 32 ≤ m.length) (h44 : m.length ≤ 44) :
    redactRun m = format_wallet_address m := by
  have hmin : min 44 m.length = m.length := min_eq_right h44
  cases m with
  | nil => simp at h32
  | cons a l =>
    show redactRunGo (l.length + 1) (a :: l) = _
    simp only [redactRunGo]
    rw [if_pos (by simpa using h32), hmin]
    rw [List.take_length, List.drop_length, redactRunGo_nil, List.append_nil]

@[simp] lemma hasRunGe_nil (k : Nat) : hasRunGe k [] = false := rfl

lemma hasRunGe_cons (k : Nat) (c : Char) (cs : Text) :
    hasRunGe k (c :: cs) =
      (decide (k ≤ ((c :: cs).takeWhile isAlnumChar).length) || hasRunGe k cs) := rfl

lemma hasRunGe_false_tail {k : Nat} {c : Char} {cs : Text}
    (h : hasRunGe k (c :: cs) = false) : hasRunGe k cs = false := by
  rw [hasRunGe_cons, Bool.or_eq_false_iff] at h
  exact h.2

lemma hasRunGe_false_head {k : Nat} {c : Char} {cs : Text}
    (h : hasRunGe k (c :: cs) = false) :
    ((c :: cs).takeWhile isAlnumChar).length < k := by
  rw [hasRunGe_cons, Bool.or_eq_false_iff] at h
  have := h.1
  simpa using this

lemma hasRunGe_dropWhile {k : Nat} (p : Char → Bool) :
    ∀ {t : Text}, hasRunGe k t = false → hasRunGe k (t.dropWhile p) = false := by
  intro t
  induction t with
  | nil => intro h; exact h
  | cons c cs ih =>
    intro h
    rw [List.dropWhile_cons]
    split
    · exact ih (hasRunGe_false_tail h)
    · exact h

lemma runBreak_nil : runBreak [] := by
  intro c cs h
  cases h

lemma runBreak_dropWhile : ∀ (t : Text), runBreak (t.dropWhile isAlnumChar) := by
  intro t
  induction t with
  | nil => exact runBreak_nil
  | cons c cs ih =>
    rw [List.dropWhile_cons]
    split
    · exact ih
    · rename_i hc
      intro d ds h
      injection h with h1 _
      subst h1
      simpa using hc

lemma hasRunGe_append_false {k : Nat} :
    ∀ (r : Text), (∀ x ∈ r, isAlnumChar x = true) → r.length < k →
      ∀ (X : Text), runBreak X → hasRunGe k X = false →
        hasRunGe k (r ++ X) = false := by
  intro r
  induction r with
  | nil => intro _ _ X _ hX; simpa using hX
  | cons a r ih =>
    intro hall hlen X hbr hX
    rw [List.cons_append, hasRunGe_cons, Bool.or_eq_false_iff]
    constructor
    · have h1 : ((a :: r) ++ X).takeWhile isAlnumChar = (a :: r) ++ X.takeWhile isAlnumChar :=
        takeWhile_append_of_all (a :: r) X hall
      rw [takeWhile_eq_nil_of_runBreak hbr, List.append_nil] at h1
      simp only [List.cons_append] at h1 ⊢
      rw [h1]
      simpa using hlen
    · exact ih (fun x hx => hall x (by simp [hx])) (by simpa using Nat.lt_of_succ_lt hlen)
        X hbr hX

lemma runBreak_redact {t : Text} (h : runBreak t) :
    runBreak (redact_all_addresses t) := by
  cases t with
  | nil => simpa [redact_nil] using runBreak_nil
  | cons c cs =>
    have hc : isAlnumChar c = false := h c cs rfl
    rw [redact_cons_not cs hc]
    intro d ds hEq
    injection hEq with h1 _
    subst h1
    exact hc

lemma redact_eq_self_of_no32 :
    ∀ (n : Nat) (t : Text), t.length ≤ n → hasRunGe 32 t = false →
      redact_all_addresses t = t := by
  intro n
  induction n with
  | zero =>
    intro t h _
    have : t = [] := List.length_eq_zero.mp (Nat.le_zero.mp h)
    subst this
    exact redact_nil
  | succ g ih =>
    intro t hlen hrun
    cases t with
    | nil => exact redact_nil
    | cons c cs =>
      cases hc : isAlnumChar c with
      | false =>
        rw [redact_cons_not cs hc]
        have : cs.length ≤ g := by
          have : cs.length + 1 ≤ g + 1 := hlen
          omega
        rw [ih cs this (hasRunGe_false_tail hrun)]
      | true =>
        rw [redact_cons_alnum cs hc]
        have hsmall : ((c :: cs).takeWhile isAlnumChar).length < 32 :=
          hasRunGe_false_head hrun
        rw [redactRun_small hsmall]
        have hdl : ((c :: cs).dropWhile isAlnumChar).length ≤ g := by
          have h1 : ((c :: cs).dropWhile isAlnumChar).length ≤ cs.length := by
            rw [List.dropWhile_cons, if_pos hc]
            exact length_dropWhile_le _ _
          have : cs.length + 1 ≤ g + 1 := hlen
          omega
        rw [ih _ hdl (hasRunGe_dropWhile _ hrun)]
        exact List.takeWhile_append_dropWhile _ _

lemma hasRunGe_dots {k : Nat} (hk : 0 < k) (Z : Text) :
    hasRunGe k (("...").data ++ Z) = hasRunGe k Z := by
  have hdot : isAlnumChar '.' = false := by decide
  show hasRunGe k ('.' :: '.' :: '.' :: Z) = hasRunGe k Z
  rw [hasRunGe_cons, hasRunGe_cons, hasRunGe_cons]
  simp [List.takeWhile_cons, hdot, Nat.not_le.mpr hk]

lemma noRun32_redact_of_noRun45 :
    ∀ (n : Nat) (t : Text), t.length ≤ n → hasRunGe 45 t = false →
      hasRunGe 32 (redact_all_addresses t) = false := by
  intro n
  induction n with
  | zero =>
    intro t h _
    have : t = [] := List.length_eq_zero.mp (Nat.le_zero.mp h)
    subst this
    simp [redact_nil]
  | succ g ih =>
    intro t hlen hrun
    cases t with
    | nil => simp [redact_nil]
    | cons c cs =>
      have hcl : cs.length + 1 ≤ g + 1 := hlen
      cases hc : isAlnumChar c with
      | false =>
        rw [redact_cons_not cs hc]
        rw [hasRunGe_cons, Bool.or_eq_false_iff]
        refine ⟨?_, ih cs (by omega) (hasRunGe_false_tail hrun)⟩
        rw [List.takeWhile_cons, if_neg (by simp [hc])]
        simp
      | true =>
        rw [redact_cons_alnum cs hc]
        set r := (c :: cs).takeWhile isAlnumChar with hr
        set d := (c :: cs).dropWhile isAlnumChar with hd
        have hdl : d.length ≤ g := by
          have h1 : d.length ≤ cs.length := by
            rw [hd, List.dropWhile_cons, if_pos hc]
            exact length_dropWhile_le _ _
          omega
        have hdrun : hasRunGe 45 d = false := hasRunGe_dropWhile _ hrun
        have hdbr : runBreak d := runBreak_dropWhile (c :: cs)
        have hRbr : runBreak (redact_all_addresses d) := runBreak_redact hdbr
        have hRrun : hasRunGe 32 (redact_all_addresses d) = false := ih d hdl hdrun
        have hralnum : ∀ x ∈ r, isAlnumChar x = true :=
          fun x hx => List.mem_takeWhile_imp hx
        have hr45 : r.length < 45 := hasRunGe_false_head hrun
        by_cases h32 : r.length < 32
        · rw [redactRun_small h32]
          exact hasRunGe_append_false r hralnum h32 _ hRbr hRrun
        · push_neg at h32
          rw [redactRun_exact h32 (by omega)]
          unfold format_wallet_address
          rw [List.append_assoc, List.append_assoc]
          apply hasRunGe_append_false (r.take 4)
            (fun x hx => hralnum x (List.take_subset _ _ hx))
            (by rw [List.length_take]; omega)
          · intro e es hEq
            have : (("...").data ++ (lastN 4 r ++ redact_all_addresses d)) =
                '.' :: ('.' :: '.' :: (lastN 4 r ++ redact_all_addresses d)) := rfl
            rw [this] at hEq
            injection hEq with h1 _
            subst h1
            decide
          · rw [hasRunGe_dots (by norm_num)]
            apply hasRunGe_append_false (lastN 4 r)
              (fun x hx => hralnum x (List.drop_subset _ _ hx))
              ?_ _ hRbr hRrun
            unfold lastN
            rw [List.length_drop]
            omega

lemma redact_append_break :
    ∀ (n : Nat) (A : Text) (c : Char) (R : Text), A.length ≤ n →
      isAlnumChar c = false →
      redact_all_addresses (A ++ c :: R) =
        redact_all_addresses A ++ redact_all_addresses (c :: R) := by
  intro n
  induction n with
  | zero =>
    intro A c R h hc
    have : A = [] := List.length_eq_zero.mp (Nat.le_zero.mp h)
    subst this
    simp [redact_nil]
  | succ g ih =>
    intro A c R hlen hc
    cases A with
    | nil => simp [redact_nil]
    | cons d A =>
      have hAl : A.length + 1 ≤ g + 1 := hlen
      cases hd : isAlnumChar d with
      | false =>
        rw [List.cons_append, redact_cons_not _ hd, redact_cons_not _ hd,
          ih A c R (by omega) hc, List.cons_append]
      | true =>
        rw [List.cons_append, redact_cons_alnum _ hd, redact_cons_alnum _ hd]
        have htw : ((d :: A) ++ c :: R).takeWhile isAlnumChar =
            (d :: A).takeWhile isAlnumChar :=
          takeWhile_append_of_break (d :: A) c R hc
        have hdw : ((d :: A) ++ c :: R).dropWhile isAlnumChar =
            (d :: A).dropWhile isAlnumChar ++ c :: R :=
          dropWhile_append_of_break (d :: A) c R hc
        simp only [List.cons_append] at htw hdw
        rw [htw, hdw]
        have hdwlen : ((d :: A).dropWhile isAlnumChar).length ≤ g := by
          have h1 : ((d :: A).dropWhile isAlnumChar).length ≤ A.length := by
            rw [List.dropWhile_cons, if_pos hd]
            exact length_dropWhile_le _ _
          omega
        have := ih ((d :: A).dropWhile isAlnumChar) c R hdwlen hc
        simp only [List.dropWhile_cons, hd, if_true] at this ⊢
        rw [this, List.append_assoc]

/-- Claim C6 counterexample: the claim says `redact_all_addresses` is
idempotent for every input text, but on a 72-character alphanumeric run the
regex consumes the first 44 characters and leaves a 28-character remainder
that, glued to the last-4 tail of the substituted abbreviation, forms a
fresh 32-character run which a second pass abbreviates again. -/
theorem c6_counterexample :
    redact_all_addresses (redact_all_addresses (List.replicate 72 'a')) ≠
      redact_all_addresses (List.replicate 72 'a') := by
  decide

/-- Claim C6 (amended): `redact_all_addresses` is idempotent on every text
that contains no alphanumeric run of 45 or more characters — in particular
on any text whose embedded addresses have the base58 length of at most 44
that the pattern targets. -/
theorem c6_idempotent (t : Text) (h : hasRunGe 45 t = false) :
    redact_all_addresses (redact_all_addresses t) = redact_all_addresses t :=
  redact_eq_self_of_no32 _ _ le_rfl (noRun32_redact_of_noRun45 _ _ le_rfl h)

/-- Claim C6 witness: the amended idempotence applied to a concrete text
holding one 40-character address. -/
theorem c6_witness :
    hasRunGe 45 (("pay ").data ++ List.replicate 40 'X' ++ (" now").data) = false ∧
      redact_all_addresses (redact_all_addresses
        (("pay ").data ++ List.replicate 40 'X' ++ (" now").data)) =
        redact_all_addresses (("pay ").data ++ List.replicate 40 'X' ++ (" now").data) :=
  ⟨by decide, c6_idempotent _ (by decide)⟩

/-- Claim C5 counterexample: the claim says personalization followed by the
generic redaction never re-abbreviates a substituted label, including
labels that are custom names; but a custom wallet name that is itself a
32-character alphanumeric run is matched by the generic pass and
re-abbreviated, destroying the substituted `*label*`. -/
theorem c5_counterexample :
    containsSub (("addr1").data) (("addr1 got funds").data) = true ∧
      containsSub ('*' :: (List.replicate 32 'B' ++ ['*']))
        (personalize (("addr1 got funds").data)
          [⟨("u1").data, ("addr1").data, some (List.replicate 32 'B'),
            ("active").data⟩]) = true ∧
      containsSub ('*' :: (List.replicate 32 'B' ++ ['*']))
        (redact_all_addresses (personalize (("addr1 got funds").data)
          [⟨("u1").data, ("addr1").data, some (List.replicate 32 'B'),
            ("active").data⟩])) = false := by
  refine ⟨by decide, by decide, by decide⟩

/-- Claim C5 (amended): any substituted label occurrence `*label*` in the
personalized text survives the generic redaction pass intact, provided the
label contains no alphanumeric run of 32 or more characters — which holds
for the abbreviated-address fallback label and for any custom name shorter
than 32 characters, but not for address-length alphanumeric custom names
(see the counterexample). -/
theorem c5_label_preserved (text : Text) (ws : List WalletRec) (A lab C : Text)
    (hP : personalize text ws = A ++ '*' :: (lab ++ '*' :: C))
    (hlab : hasRunGe 32 lab = false) :
    ∃ X Y, redact_all_addresses (personalize text ws) =
      X ++ ('*' :: (lab ++ ['*'])) ++ Y := by
  have hstar : isAlnumChar '*' = false := by decide
  refine ⟨redact_all_addresses A, redact_all_addresses C, ?_⟩
  rw [hP]
  rw [redact_append_break A.length A '*' (lab ++ '*' :: C) le_rfl hstar]
  rw [redact_cons_not _ hstar]
  rw [redact_append_break lab.length lab '*' C le_rfl hstar]
  rw [redact_eq_self_of_no32 lab.length lab le_rfl hlab]
  rw [redact_cons_not _ hstar]
  simp [List.append_assoc]

lemma except_bind_ok {α β : Type} (x : Except Unit α) (f : α → Except Unit β) (b : β) :
    (x >>= f = Except.ok b) ↔ ∃ a, x = Except.ok a ∧ f a = Except.ok b := by
  cases x with
  | ok a => simp [Bind.bind, Except.bind]
  | error e => simp [Bind.bind, Except.bind]

lemma except_bind_error {α β : Type} (x : Except Unit α) (f : α → Except Unit β)
    (h : ∀ a, f a = Except.error ()) : x >>= f = Except.error () := by
  cases x with
  | ok a => simpa [Bind.bind, Except.bind] using h a
  | error e => rfl

lemma error_bind {α β : Type} (f : α → Except Unit β) :
    (Except.error () : Except Unit α) >>= f = Except.error () := rfl

lemma except_bind_const_error {α β : Type} (x : Except Unit α) :
    (x >>= fun _ => (Except.error () : Except Unit β)) = Except.error () := by
  cases x with
  | ok a => rfl
  | error e => rfl

lemma req_some_inv {α : Type} {o : Option α} {a : α}
    (h : req o = Except.ok a) : o = some a := by
  cases o with
  | none => simp [req] at h
  | some b => simpa [req] using h

lemma touched_error_noInstr {e : Event} (h : e.instructions = none) :
    touchedAccounts_code e = Except.error () := by
  unfold touchedAccounts_code
  rw [h]
  rfl

lemma touched_error_noTT {e : Event} (h : e.tokenTransfers = none) :
    touchedAccounts_code e = Except.error () := by
  cases hi : e.instructions with
  | none => exact touched_error_noInstr hi
  | some is =>
    unfold touchedAccounts_code
    rw [hi, h]
    exact except_bind_error _ _ (fun a => except_bind_error _ _ (fun b => rfl))

lemma event_error_of_missing (ti : Text → Option TokenInfo) (tp : Text → Option ℚ)
    (fmtNum : ℚ → Text) (e0 : Event)
    (h : e0.type = none ∨ e0.signature = none ∨ e0.source = none ∨
      e0.description = none ∨ e0.instructions = none ∨ e0.tokenTransfers = none) :
    create_message_event ti tp fmtNum e0 = Except.error () := by
  rcases h with h | h | h | h | h | h
  · unfold create_message_event
    rw [h]
    rfl
  · unfold create_message_event
    simp only [h, req, error_bind, except_bind_const_error]
  · unfold create_message_event
    simp only [h, req, error_bind, except_bind_const_error]
  · unfold create_message_event
    simp only [h, req, error_bind, except_bind_const_error]
  · unfold create_message_event
    simp only [touched_error_noInstr h, error_bind, except_bind_const_error]
  · unfold create_message_event
    simp only [touched_error_noTT h, error_bind, except_bind_const_error]

/-- Claim C8: for every payload whose first event is missing any of the keys
`type`, `signature`, `source`, `description`, `instructions` or
`tokenTransfers`, the structural error raised during rendering or account
collection is caught by the top-level `except` of `create_message`, which
returns the empty recipient-message list instead of propagating (the model
`create_message` is a total function, so no exception can escape). -/
theorem c8_missing_keys_yield_empty (ti : Text → Option TokenInfo)
    (tp : Text → Option ℚ) (fmtNum : ℚ → Text) (imgOf : List Event → Text)
    (db : DB) (data : List Event) (e0 : Event) (rest : List Event)
    (hd : data = e0 :: rest)
    (h : e0.type = none ∨ e0.signature = none ∨ e0.source = none ∨
      e0.description = none ∨ e0.instructions = none ∨ e0.tokenTransfers = none) :
    create_message ti tp fmtNum imgOf db data = [] := by
  subst hd
  unfold create_message create_message_core create_message_pre
  have he : create_message_event ti tp fmtNum e0 = Except.error () :=
    event_error_of_missing ti tp fmtNum e0 h
  show (match (req (some e0) >>= fun e => create_message_event ti tp fmtNum e) >>=
      (fun p => Except.ok (mkMessages db _ p.1 p.2)) with
    | Except.ok msgs => msgs
    | Except.error _ => []) = []
  rw [show (req (some e0) >>= fun e => create_message_event ti tp fmtNum e) =
    create_message_event ti tp fmtNum e0 from rfl, he]
  rfl

/-- Claim C8 witness: a concrete event carrying every key except `type`
yields the empty message list. -/
theorem c8_witness :
    create_message (fun _ => none) (fun _ => none) (fun _ => [])
      (fun _ => []) ⟨[], []⟩
      [⟨none, some (("s").data), some (("SRC").data), some (("d").data),
        some [], some []⟩] = [] :=
  c8_missing_keys_yield_empty (fun _ => none) (fun _ => none) (fun _ => [])
    (fun _ => []) ⟨[], []⟩ _
    ⟨none, some (("s").data), some (("SRC").data), some (("d").data),
      some [], some []⟩ [] rfl (Or.inl rfl)

lemma pure_ok_inv {α : Type} {a b : α}
    (h : (pure a : Except Unit α) = Except.ok b) : a = b := by
  simpa [Pure.pure, Except.pure] using h

lemma event_ok_touched {ti : Text → Option TokenInfo} {tp : Text → Option ℚ}
    {fmtNum : ℚ → Text} {e0 : Event} {p : Text × List Text}
    (h : create_message_event ti tp fmtNum e0 = Except.ok p) :
    touchedAccounts_code e0 = Except.ok p.2 := by
  unfold create_message_event at h
  rw [except_bind_ok] at h
  obtain ⟨ty, _, h⟩ := h
  rw [except_bind_ok] at h
  obtain ⟨tx, _, h⟩ := h
  rw [except_bind_ok] at h
  obtain ⟨src, _, h⟩ := h
  rw [except_bind_ok] at h
  obtain ⟨desc, _, h⟩ := h
  rw [except_bind_ok] at h
  obtain ⟨body, _, h⟩ := h
  rw [except_bind_ok] at h
  obtain ⟨accs, haccs, h⟩ := h
  have := pure_ok_inv h
  rw [haccs, ← this]

lemma filter_map_user (F : Text → Msg) (hF : ∀ x, (F x).user = x) :
    ∀ (l : List Text) (u : Text),
      ((l.map F).filter (fun m => m.user == u)).length =
        (l.filter (fun x => x == u)).length := by
  intro l u
  induction l with
  | nil => rfl
  | cons x xs ih =>
    rw [List.map_cons, List.filter_cons, List.filter_cons, hF x]
    cases h : (x == u) with
    | false => simpa [h] using ih
    | true => simpa [h] using ih

lemma count_nodup (u : Text) :
    ∀ (l : List Text), l.Nodup →
      (l.filter (fun x => x == u)).length = if u ∈ l then 1 else 0 := by
  intro l
  induction l with
  | nil => intro _; simp
  | cons x xs ih =>
    intro hnd
    rw [List.nodup_cons] at hnd
    rw [List.filter_cons]
    by_cases hx : x = u
    · subst hx
      rw [if_pos (by simp)]
      have hz : xs.filter (fun y => y == x) = [] := by
        rw [List.filter_eq_nil_iff]
        intro a ha hba
        rw [beq_iff_eq] at hba
        subst hba
        exact hnd.1 ha
      rw [hz, if_pos (by simp)]
      rfl
    · rw [if_neg (by simp [beq_iff_eq]; exact hx)]
      rw [ih hnd.2]
      have hux : ¬ u = x := fun h => hx h.symm
      have hmem : (u ∈ x :: xs) ↔ (u ∈ xs) := by
        rw [List.mem_cons]
        exact or_iff_right hux
      rw [if_congr hmem rfl rfl]

lemma mkMessages_count (db : DB) (image message : Text) (accs : List Text)
    (u : Text) :
    ((mkMessages db image message accs).filter (fun m => m.user == u)).length =
      if ∃ w ∈ db.wallets, w.user_id = u ∧ w.status = ("active").data ∧
          w.address ∈ accs then 1 else 0 := by
  unfold mkMessages
  rw [filter_map_user _ (fun x => rfl)]
  rw [count_nodup u _ (List.nodup_dedup _)]
  have hiff : (u ∈ ((db.wallets.filter (fun w =>
      accs.contains w.address && w.status == ("active").data)).map
        (fun w => w.user_id)).dedup) ↔
      (∃ w ∈ db.wallets, w.user_id = u ∧ w.status = ("active").data ∧
        w.address ∈ accs) := by
    simp only [List.mem_dedup, List.mem_map, List.mem_filter,
      Bool.and_eq_true, beq_iff_eq, List.contains, List.elem_iff]
    constructor
    · rintro ⟨w, ⟨hw, hacc, hst⟩, hu⟩
      exact ⟨w, hw, hu, hst, hacc⟩
    · rintro ⟨w, hw, hu, hst, hacc⟩
      exact ⟨w, ⟨hw, hacc, hst⟩, hu⟩
  rw [if_congr hiff rfl rfl]

lemma mkMessages_empty (db : DB) (image message : Text) (accs : List Text)
    (h : ∀ w ∈ db.wallets, ¬ (w.status = ("active").data ∧ w.address ∈ accs)) :
    mkMessages db image message accs = [] := by
  unfold mkMessages
  have hz : db.wallets.filter (fun w =>
      accs.contains w.address && w.status == ("active").data) = [] := by
    rw [List.filter_eq_nil_iff]
    intro w hw hc
    simp only [Bool.and_eq_true, beq_iff_eq, List.contains, List.elem_iff] at hc
    exact h w hw ⟨hc.2, hc.1⟩
  rw [hz]
  rfl

/-- Claim C1: whenever `create_message` completes without a structural error,
it produces exactly one RecipientMessage per distinct `user_id` owning at
least one active wallet whose address is among the candidate accounts the
code computed for the event — never more than one per user however many of
the user's wallets match — and zero messages when no active wallet
matches. -/
theorem c1_one_message_per_matched_user (ti : Text → Option TokenInfo)
    (tp : Text → Option ℚ) (fmtNum : ℚ → Text) (imgOf : List Event → Text)
    (db : DB) (data : List Event) (e0 : Event) (rest : List Event)
    (accs : List Text) (msgs : List Msg) (u : Text)
    (hd : data = e0 :: rest)
    (hacc : touchedAccounts_code e0 = Except.ok accs)
    (hm : create_message_core ti tp fmtNum imgOf db data = Except.ok msgs) :
    ((msgs.filter (fun m => m.user == u)).length =
      if ∃ w ∈ db.wallets, w.user_id = u ∧ w.status = ("active").data ∧
          w.address ∈ accs then 1 else 0) ∧
      ((∀ w ∈ db.wallets, ¬ (w.status = ("active").data ∧ w.address ∈ accs)) →
        msgs = []) := by
  subst hd
  unfold create_message_core at hm
  rw [except_bind_ok] at hm
  obtain ⟨p, hp, hmk⟩ := hm
  have hp' : create_message_event ti tp fmtNum e0 = Except.ok p := hp
  have ht : touchedAccounts_code e0 = Except.ok p.2 := event_ok_touched hp'
  rw [hacc] at ht
  have haeq : accs = p.2 := by
    injection ht
  have hmsgs : msgs = mkMessages db (imgOf (e0 :: rest)) p.1 p.2 := by
    have := hmk
    simp only [Except.ok.injEq] at this
    exact this.symm
  subst hmsgs
  subst haeq
  exact ⟨mkMessages_count db _ p.1 p.2 u, mkMessages_empty db _ p.1 p.2⟩

/-- A concrete database exercising the fan-out: two active wallets of user
u1 and one inactive wallet of user u2, all touched by `exEvent`. -/
def exDB : DB :=
  ⟨[⟨("u1").data, ("wA").data, some (("home").data), ("active").data⟩,
    ⟨("u1").data, ("wB").data, none, ("active").data⟩,
    ⟨("u2").data, ("wB").data, none, ("inactive").data⟩], []⟩

/-- A concrete well-formed generic event touching wallets wA and wB. -/
def exEvent : Event :=
  ⟨some (("TRANSFER").data), some (("s").data), some (("SRC").data),
    some (("d").data), some [⟨some [("wA").data, ("wB").data]⟩], some []⟩

/-- The messages produced for `exEvent` against `exDB`. -/
def exMsgs : List Msg :=
  (create_message_core (fun _ => none) (fun _ => none) (fun _ => [])
    (fun _ => ("img").data) exDB [exEvent]).toOption.getD []

/-- Claim C1 witness: on `exEvent` and `exDB`, exactly one message is
produced for user u1 (who owns two matching active wallets) and the
zero-when-no-match clause is available. -/
theorem c1_witness :
    ((exMsgs.filter (fun m => m.user == ("u1").data)).length =
      if ∃ w ∈ exDB.wallets, w.user_id = ("u1").data ∧
          w.status = ("active").data ∧
          w.address ∈ [("wA").data, ("wB").data] then 1 else 0) ∧
      ((∀ w ∈ exDB.wallets, ¬ (w.status = ("active").data ∧
          w.address ∈ [("wA").data, ("wB").data])) → exMsgs = []) :=
  c1_one_message_per_matched_user (fun _ => none) (fun _ => none) (fun _ => [])
    (fun _ => ("img").data) exDB [exEvent] exEvent []
    [("wA").data, ("wB").data] exMsgs (("u1").data) rfl (by rfl) (by rfl)

lemma create_message_empty_of_event_error (ti : Text → Option TokenInfo)
    (tp : Text → Option ℚ) (fmtNum : ℚ → Text) (imgOf : List Event → Text)
    (db : DB) (e0 : Event) (rest : List Event)
    (he : create_message_event ti tp fmtNum e0 = Except.error ()) :
    create_message ti tp fmtNum imgOf db (e0 :: rest) = [] := by
  unfold create_message create_message_core create_message_pre
  rw [show ((req (e0 :: rest).head?) >>= fun e => create_message_event ti tp fmtNum e) =
    create_message_event ti tp fmtNum e0 from rfl, he]
  rfl

lemma foldInstr_ok :
    ∀ (is : List Instr) (init v : List Text),
      is.foldlM (fun acc i => do
        let a ← req i.accounts
        pure (acc ++ a)) init = Except.ok v →
      v = init ++ (is.map (fun i => i.accounts.getD [])).flatten := by
  intro is
  induction is with
  | nil =>
    intro init v h
    have := pure_ok_inv h
    simp [← this]
  | cons i is ih =>
    intro init v h
    rw [List.foldlM_cons, except_bind_ok] at h
    obtain ⟨b, hb, h⟩ := h
    rw [except_bind_ok] at hb
    obtain ⟨a, ha, hb⟩ := hb
    have hia : i.accounts = some a := req_some_inv ha
    have hbv : init ++ a = b := pure_ok_inv hb
    have := ih b v h
    rw [this, ← hbv]
    simp [hia, List.append_assoc]

lemma foldTT_ok :
    ∀ (ts : List Transfer) (init v : List Text),
      ts.foldlM (fun acc t => do
        let f ← req t.fromUserAccount
        let g ← req t.toUserAccount
        pure (acc ++ [f, g])) init = Except.ok v →
      v = init ++ (ts.map (fun t =>
        t.fromUserAccount.toList ++ t.toUserAccount.toList)).flatten := by
  intro ts
  induction ts with
  | nil =>
    intro init v h
    have := pure_ok_inv h
    simp [← this]
  | cons t ts ih =>
    intro init v h
    rw [List.foldlM_cons, except_bind_ok] at h
    obtain ⟨b, hb, h⟩ := h
    rw [except_bind_ok] at hb
    obtain ⟨f, hf, hb⟩ := hb
    rw [except_bind_ok] at hb
    obtain ⟨g, hg, hb⟩ := hb
    have htf : t.fromUserAccount = some f := req_some_inv hf
    have htg : t.toUserAccount = some g := req_some_inv hg
    have hbv : init ++ [f, g] = b := pure_ok_inv hb
    have := ih b v h
    rw [this, ← hbv]
    simp [htf, htg, Option.toList, List.append_assoc]

/-- Claim C4 counterexample: an event with a non-empty `instructions` list
but no `tokenTransfers` key.  The spec-modelled candidate set is non-empty
and matches an active wallet, yet the code's direct
`data[0]['tokenTransfers']` access raises, the top-level handler catches,
and zero recipients are resolved — absence of the field is not
tolerated. -/
theorem c4_counterexample :
    create_message (fun _ => none) (fun _ => none) (fun _ => []) (fun _ => [])
        ⟨[⟨("u1").data, ("wA").data, none, ("active").data⟩], []⟩
        [⟨some (("TRANSFER").data), some (("s").data), some (("SRC").data),
          some (("d").data), some [⟨some [("wA").data]⟩], none⟩] = [] ∧
      touchedAccounts_spec
        ⟨some (("TRANSFER").data), some (("s").data), some (("SRC").data),
          some (("d").data), some [⟨some [("wA").data]⟩], none⟩ = [("wA").data] ∧
      (∃ w ∈ ([⟨("u1").data, ("wA").data, none, ("active").data⟩] : List WalletRec),
        w.status = ("active").data ∧ w.address ∈ touchedAccounts_spec
          ⟨some (("TRANSFER").data), some (("s").data), some (("SRC").data),
            some (("d").data), some [⟨some [("wA").data]⟩], none⟩) := by
  refine ⟨rfl, rfl, by decide⟩

/-- Claim C4 (amended): the candidate account set is membership-equal to the
spec's deduplicated union of instruction accounts and transfer endpoints
whenever the account computation succeeds, and it is deduplicated whenever
`tokenTransfers` is non-empty; but absence is not tolerated — a missing
`tokenTransfers` key aborts `create_message` with zero recipients even when
`instructions` is present and matches active wallets. -/
theorem c4_accounts (ti : Text → Option TokenInfo) (tp : Text → Option ℚ)
    (fmtNum : ℚ → Text) (imgOf : List Event → Text) (db : DB) :
    (∀ (e0 : Event) (rest : List Event), e0.tokenTransfers = none →
      create_message ti tp fmtNum imgOf db (e0 :: rest) = []) ∧
      (∀ (e : Event) (accs : List Text),
        touchedAccounts_code e = Except.ok accs →
        (∀ x, x ∈ accs ↔ x ∈ touchedAccounts_spec e) ∧
        (e.tokenTransfers.getD [] ≠ [] → accs.Nodup)) := by
  constructor
  · intro e0 rest h
    exact create_message_empty_of_event_error ti tp fmtNum imgOf db e0 rest
      (event_error_of_missing ti tp fmtNum e0 (by tauto))
  · intro e accs h
    unfold touchedAccounts_code at h
    rw [except_bind_ok] at h
    obtain ⟨instrs, hi, h⟩ := h
    have hinstr : e.instructions = some instrs := req_some_inv hi
    rw [except_bind_ok] at h
    obtain ⟨acc0, hf, h⟩ := h
    have hacc0 : acc0 = (instrs.map (fun i => i.accounts.getD [])).flatten := by
      simpa using foldInstr_ok instrs [] acc0 hf
    rw [except_bind_ok] at h
    obtain ⟨tts, htt, h⟩ := h
    have htts : e.tokenTransfers = some tts := req_some_inv htt
    by_cases hne : tts = []
    · subst hne
      rw [if_neg (by simp)] at h
      have haccs : acc0 = accs := pure_ok_inv h
      constructor
      · intro x
        rw [← haccs, hacc0]
        unfold touchedAccounts_spec
        rw [hinstr, htts]
        simp [List.mem_dedup]
      · intro hbad
        rw [htts] at hbad
        simp at hbad
    · rw [if_pos (by simpa using hne)] at h
      rw [except_bind_ok] at h
      obtain ⟨acc2, hf2, h⟩ := h
      have hacc2 : acc2 = acc0 ++ (tts.map (fun t =>
          t.fromUserAccount.toList ++ t.toUserAccount.toList)).flatten :=
        foldTT_ok tts acc0 acc2 hf2
      have haccs : acc2.dedup = accs := pure_ok_inv h
      constructor
      · intro x
        rw [← haccs, hacc2, hacc0]
        unfold touchedAccounts_spec
        rw [hinstr, htts]
        simp [List.mem_dedup]
      · intro _
        rw [← haccs]
        exact List.nodup_dedup _

/-- Claim C4 witness: the amended account characterization applied to a
concrete event with a missing `tokenTransfers` key (zero recipients) and to
`exEvent` (membership equality with the spec union). -/
theorem c4_witness :
    (create_message (fun _ => none) (fun _ => none) (fun _ => [])
      (fun _ => []) exDB
      [⟨some (("TRANSFER").data), some (("s").data), some (("SRC").data),
        some (("d").data), some [⟨some [("wA").data]⟩], none⟩] = []) ∧
      (((("wA").data) ∈ [("wA").data, ("wB").data]) ↔
        ((("wA").data) ∈ touchedAccounts_spec exEvent)) :=
  ⟨(c4_accounts (fun _ => none) (fun _ => none) (fun _ => [])
      (fun _ => []) exDB).1 _ [] rfl,
    (((c4_accounts (fun _ => none) (fun _ => none) (fun _ => [])
      (fun _ => []) exDB).2 exEvent [("wA").data, ("wB").data] (by rfl)).1
        (("wA").data))⟩

lemma ok_bind {α β : Type} (a : α) (f : α → Except Unit β) :
    (Except.ok a : Except Unit α) >>= f = f a := rfl

/-- Claim C3 counterexample: the claim says the generic rendering omits
" on {source}" when the source is SYSTEM_PROGRAM, but the code's generic
branch (src/app.py line 286) has no such case: the rendered text contains
" on SYSTEM_PROGRAM". -/
theorem c3_counterexample :
    renderBody (fun _ => []) ⟨none, none, none, none, none, none⟩
        (("TRANSFER").data) (("SYSTEM_PROGRAM").data) (("hi").data) none =
      Except.ok (("*TRANSFER* on SYSTEM_PROGRAM\n\nhi").data) ∧
      containsSub ((" on SYSTEM_PROGRAM").data)
        (("*TRANSFER* on SYSTEM_PROGRAM\n\nhi").data) = true := by
  refine ⟨rfl, by decide⟩

/-- Claim C3 (amended): for every event whose normalized type is not SWAP,
NFT SALE or NFT PURCHASE, the canonical text is
`"*{type}* on {source}\n\n"` followed by the description when non-empty and
the navigation footer — for every source, including SYSTEM_PROGRAM (the
code has no omission case), with the description included verbatim. -/
theorem c3_generic_rendering (ti : Text → Option TokenInfo)
    (tp : Text → Option ℚ) (fmtNum : ℚ → Text) (imgOf : List Event → Text)
    (db : DB) (data : List Event) (e0 : Event) (rest : List Event)
    (ty sig src desc : Text)
    (hd : data = e0 :: rest)
    (hty : e0.type = some ty) (hsig : e0.signature = some sig)
    (hsrc : e0.source = some src) (hdesc : e0.description = some desc)
    (h1 : replaceAll ("_").data (" ").data ty ≠ ("SWAP").data)
    (h2 : replaceAll ("_").data (" ").data ty ≠ ("NFT SALE").data)
    (h3 : replaceAll ("_").data (" ").data ty ≠ ("NFT PURCHASE").data) :
    create_message_core ti tp fmtNum imgOf db data =
      touchedAccounts_code e0 >>= (fun accs =>
        Except.ok (mkMessages db (imgOf data)
          ((("*").data ++ replaceAll ("_").data (" ").data ty ++ ("* on ").data
              ++ src ++ ("\n\n").data ++ (if desc = [] then [] else desc))
            ++ footer sig) accs)) := by
  subst hd
  unfold create_message_core create_message_pre create_message_event
  simp only [hty, hsig, hsrc, hdesc, req, ok_bind, List.head?]
  rw [renderBody, if_neg h1, if_neg (by rw [not_or]; exact ⟨h2, h3⟩)]
  cases htc : touchedAccounts_code e0 with
  | ok accs => rfl
  | error e => rfl

/-- Claim C3 witness: the amended generic-rendering equality applied to the
concrete event `exEvent`. -/
theorem c3_witness :
    create_message_core (fun _ => none) (fun _ => none) (fun _ => [])
        (fun _ => ("img").data) exDB [exEvent] =
      touchedAccounts_code exEvent >>= (fun accs =>
        Except.ok (mkMessages exDB (("img").data)
          ((("*").data ++ replaceAll ("_").data (" ").data (("TRANSFER").data)
              ++ ("* on ").data ++ ("SRC").data ++ ("\n\n").data
              ++ (if (("d").data : Text) = [] then [] else ("d").data))
            ++ footer (("s").data)) accs)) :=
  c3_generic_rendering (fun _ => none) (fun _ => none) (fun _ => [])
    (fun _ => ("img").data) exDB [exEvent] exEvent [] (("TRANSFER").data)
    (("s").data) (("SRC").data) (("d").data) rfl rfl rfl rfl rfl
    (by decide) (by decide) (by decide)

/-- Claim C5 witness: the amended preservation applied to a concrete
personalization in which the wallet's custom name "bob" is substituted. -/
theorem c5_witness :
    ∃ X Y, redact_all_addresses (personalize (("addr1 got funds").data)
      [⟨("u1").data, ("addr1").data, some (("bob").data), ("active").data⟩]) =
      X ++ ('*' :: ((("bob").data) ++ ['*'])) ++ Y :=
  c5_label_preserved (("addr1 got funds").data)
    [⟨("u1").data, ("addr1").data, some (("bob").data), ("active").data⟩]
    [] (("bob").data) ((" got funds").data) (by decide) (by decide)

lemma processOne_actUser (storeOk : Text → Bool) (fetchOk : Text → Text → Bool)
    (photoOk : Text → Bool) (sig ty : Text) (m : Msg) :
    ∀ a ∈ processOne storeOk fetchOk photoOk sig ty m, actUser a = m.user := by
  intro a ha
  unfold processOne send_image_to_user send_message_to_user at ha
  by_cases hst : storeOk m.user = true
  · rw [if_pos hst] at ha
    rcases List.mem_cons.mp ha with h | h
    · subst h; rfl
    · split at h
      · split at h
        · split at h
          · rcases List.mem_singleton.mp h with rfl; rfl
          · rcases List.mem_cons.mp h with rfl | h
            · rfl
            · rcases List.mem_singleton.mp h with rfl; rfl
        · rcases List.mem_singleton.mp h with rfl; rfl
      · rcases List.mem_singleton.mp h with rfl; rfl
  · rw [if_neg hst] at ha
    cases ha

lemma processOne_congr (st st' : Text → Bool) (fo fo' : Text → Text → Bool)
    (po po' : Text → Bool) (sig ty : Text) (m : Msg)
    (h1 : st m.user = st' m.user) (h2 : ∀ i, fo m.user i = fo' m.user i)
    (h3 : po m.user = po' m.user) :
    processOne st fo po sig ty m = processOne st' fo' po' sig ty m := by
  unfold processOne send_image_to_user send_message_to_user
  rw [h1, h2, h3]

/-- Claim C2 counterexample: the claim says a persistence failure for a
recipient does not prevent that same recipient's delivery attempt; but the
store and the delivery share one `try/except ... continue`, so when the
store fails for u1 the trace contains no transport action for u1 at all
(while u2 is still fully processed). -/
theorem c2_counterexample :
    ((fun u => !(u == ("u1").data)) (("u1").data) = false) ∧
      processMessages (fun u => !(u == ("u1").data)) (fun _ _ => true)
        (fun _ => true) (("s").data) (("T").data)
        [⟨("u1").data, ("t1").data, [], false⟩,
          ⟨("u2").data, ("t2").data, [], false⟩] =
      [Act.store (("u2").data) (("t2").data) false (("s").data) (("T").data),
        Act.sendText (("u2").data) (("t2").data)] ∧
      (processMessages (fun u => !(u == ("u1").data)) (fun _ _ => true)
        (fun _ => true) (("s").data) (("T").data)
        [⟨("u1").data, ("t1").data, [], false⟩,
          ⟨("u2").data, ("t2").data, [], false⟩]).filter
        (fun a => isSendAct a && (actUser a == ("u1").data)) = [] := by
  refine ⟨by decide, by decide, by decide⟩

/-- Claim C2 (amended): a persistence failure for a recipient is caught by
the per-recipient handler and skips that recipient's delivery attempt
entirely, while a successful store is always followed by a delivery
attempt; and neither kind of per-recipient outcome affects the actions
taken for any other recipient of the same batch. -/
theorem c2_isolation :
    (∀ (st : Text → Bool) (fo : Text → Text → Bool) (po : Text → Bool)
      (sig ty : Text) (m : Msg), st m.user = false →
        processOne st fo po sig ty m = []) ∧
      (∀ (st : Text → Bool) (fo : Text → Text → Bool) (po : Text → Bool)
        (sig ty : Text) (m : Msg), st m.user = true →
          ∃ rest, processOne st fo po sig ty m =
            Act.store m.user m.text m.priority sig ty :: rest ∧ rest ≠ []) ∧
      (∀ (msgs : List Msg) (st st' : Text → Bool) (fo fo' : Text → Text → Bool)
        (po po' : Text → Bool) (sig ty : Text) (u : Text),
        (∀ v, v ≠ u → st v = st' v) → (∀ v i, v ≠ u → fo v i = fo' v i) →
        (∀ v, v ≠ u → po v = po' v) →
        (processMessages st fo po sig ty msgs).filter
            (fun a => !(actUser a == u)) =
          (processMessages st' fo' po' sig ty msgs).filter
            (fun a => !(actUser a == u))) := by
  refine ⟨?_, ?_, ?_⟩
  · intro st fo po sig ty m h
    simp [processOne, h]
  · intro st fo po sig ty m h
    unfold processOne send_image_to_user send_message_to_user
    rw [if_pos h]
    by_cases him : m.image ≠ []
    · rw [if_pos him]
      by_cases hfo : fo m.user m.image = true
      · rw [if_pos hfo]
        by_cases hpo : po m.user = true
        · exact ⟨_, rfl, by simp⟩
        · exact ⟨_, rfl, by simp⟩
      · rw [if_neg hfo]
        exact ⟨_, rfl, by simp⟩
    · rw [if_neg him]
      exact ⟨_, rfl, by simp⟩
  · intro msgs st st' fo fo' po po' sig ty u hst hfo hpo
    induction msgs with
    | nil => rfl
    | cons m ms ih =>
      unfold processMessages at ih ⊢
      rw [List.flatMap_cons, List.flatMap_cons, List.filter_append,
        List.filter_append, ih]
      congr 1
      by_cases hm : m.user = u
      · rw [List.filter_eq_nil_iff.mpr, List.filter_eq_nil_iff.mpr]
        · intro a ha
          rw [processOne_actUser st' fo' po' sig ty m a ha, hm]
          simp
        · intro a ha
          rw [processOne_actUser st fo po sig ty m a ha, hm]
          simp
      · rw [processOne_congr st st' fo fo' po po' sig ty m
          (hst m.user hm) (fun i => hfo m.user i hm) (hpo m.user hm)]

/-- Claim C2 witness: the amended isolation applied at concrete inputs — a
failed store yields an empty per-recipient trace, a successful store yields
the store action followed by a non-empty delivery attempt, and varying u1's
store outcome leaves the non-u1 part of a concrete batch trace unchanged. -/
theorem c2_witness :
    processOne (fun _ => false) (fun _ _ => true) (fun _ => true)
        (("s").data) (("T").data) ⟨("u1").data, ("t1").data, [], false⟩ = [] ∧
      (∃ rest, processOne (fun _ => true) (fun _ _ => true) (fun _ => true)
        (("s").data) (("T").data) ⟨("u1").data, ("t1").data, [], false⟩ =
          Act.store (("u1").data) (("t1").data) false (("s").data) (("T").data)
            :: rest ∧ rest ≠ []) ∧
      (processMessages (fun u => !(u == ("u1").data)) (fun _ _ => true)
          (fun _ => true) (("s").data) (("T").data)
          [⟨("u1").data, ("t1").data, [], false⟩,
            ⟨("u2").data, ("t2").data, [], false⟩]).filter
          (fun a => !(actUser a == ("u1").data)) =
        (processMessages (fun _ => true) (fun _ _ => true) (fun _ => true)
          (("s").data) (("T").data)
          [⟨("u1").data, ("t1").data, [], false⟩,
            ⟨("u2").data, ("t2").data, [], false⟩]).filter
          (fun a => !(actUser a == ("u1").data)) :=
  ⟨c2_isolation.1 (fun _ => false) (fun _ _ => true) (fun _ => true)
      (("s").data) (("T").data) ⟨("u1").data, ("t1").data, [], false⟩ rfl,
    c2_isolation.2.1 (fun _ => true) (fun _ _ => true) (fun _ => true)
      (("s").data) (("T").data) ⟨("u1").data, ("t1").data, [], false⟩ rfl,
    c2_isolation.2.2 _ _ _ _ _ _ _ (("s").data) (("T").data) (("u1").data)
      (fun v hv => by simp [hv]) (fun v i hv => rfl) (fun v hv => rfl)⟩

/-- Claim C7: for a stored RecipientMessage with a non-empty image URL, if
the image fetch/normalisation or the photo transmission fails, exactly one
plain-text delivery with the original text is invoked; if rich delivery
succeeds, no plain-text delivery happens — the outcomes are mutually
exclusive and the message is never transmitted twice. -/
theorem c7_rich_fallback (st : Text → Bool) (fo : Text → Text → Bool)
    (po : Text → Bool) (sig ty : Text) (m : Msg)
    (hst : st m.user = true) (him : m.image ≠ []) :
    ((processOne st fo po sig ty m).filter isSendTextAct =
      if fo m.user m.image && po m.user then [] else [Act.sendText m.user m.text]) ∧
      ((processOne st fo po sig ty m).filter isSendPhotoAct =
        if fo m.user m.image then [Act.sendPhoto m.user m.text m.image] else []) := by
  unfold processOne send_image_to_user send_message_to_user
  rw [if_pos hst, if_pos him]
  by_cases hfo : fo m.user m.image = true
  · rw [if_pos hfo]
    by_cases hpo : po m.user = true
    · rw [if_pos hpo]
      simp [hfo, hpo, isSendTextAct, isSendPhotoAct, List.filter]
    · rw [if_neg hpo]
      simp only [Bool.not_eq_true] at hpo
      simp [hfo, hpo, isSendTextAct, isSendPhotoAct, List.filter]
  · rw [if_neg hfo]
    simp only [Bool.not_eq_true] at hfo
    simp [hfo, isSendTextAct, isSendPhotoAct, List.filter]

/-- Claim C7 witness: the fallback characterization at a concrete message
whose image fetch fails (exactly one text send, no photo) and the filing of
its hypotheses. -/
theorem c7_witness :
    ((processOne (fun _ => true) (fun _ _ => false) (fun _ => true)
        (("s").data) (("T").data)
        ⟨("u1").data, ("t1").data, ("http").data, false⟩).filter isSendTextAct =
      if (fun (_ : Text) (_ : Text) => false) (("u1").data) (("http").data) &&
          (fun (_ : Text) => true) (("u1").data) then []
        else [Act.sendText (("u1").data) (("t1").data)]) ∧
      ((processOne (fun _ => true) (fun _ _ => false) (fun _ => true)
        (("s").data) (("T").data)
        ⟨("u1").data, ("t1").data, ("http").data, false⟩).filter isSendPhotoAct =
        if (fun (_ : Text) (_ : Text) => false) (("u1").data) (("http").data) then
          [Act.sendPhoto (("u1").data) (("t1").data) (("http").data)] else []) :=
  c7_rich_fallback (fun _ => true) (fun _ _ => false) (fun _ => true)
    (("s").data) (("T").data)
    ⟨("u1").data, ("t1").data, ("http").data, false⟩ rfl (by decide)

/-- Claim C9: the webhook endpoint returns a client error (400) when the
body is not JSON or is empty/falsy; otherwise it returns 200 with
`messages_sent` equal to the number of RecipientMessages generated, and
both the status and the count are unchanged under any change of the store
and transport outcomes. -/
theorem c9_webhook_response (ti : Text → Option TokenInfo) (tp : Text → Option ℚ)
    (fmtNum : ℚ → Text) (imgOf : List Event → Text) (db : DB)
    (st : Text → Bool) (fo : Text → Text → Bool) (po : Text → Bool) :
    (handle_webhook ti tp fmtNum imgOf db st fo po none = (400, 0, []) ∧
      handle_webhook ti tp fmtNum imgOf db st fo po (some []) = (400, 0, [])) ∧
      (∀ (e0 : Event) (rest : List Event) (st' : Text → Bool)
        (fo' : Text → Text → Bool) (po' : Text → Bool),
        (handle_webhook ti tp fmtNum imgOf db st fo po (some (e0 :: rest))).1 = 200 ∧
        (handle_webhook ti tp fmtNum imgOf db st fo po (some (e0 :: rest))).2.1 =
          (create_message ti tp fmtNum imgOf db (e0 :: rest)).length ∧
        (handle_webhook ti tp fmtNum imgOf db st' fo' po' (some (e0 :: rest))).1 =
          (handle_webhook ti tp fmtNum imgOf db st fo po (some (e0 :: rest))).1 ∧
        (handle_webhook ti tp fmtNum imgOf db st' fo' po' (some (e0 :: rest))).2.1 =
          (handle_webhook ti tp fmtNum imgOf db st fo po (some (e0 :: rest))).2.1) :=
  ⟨⟨rfl, rfl⟩, fun _ _ _ _ _ => ⟨rfl, rfl, rfl, rfl⟩⟩

lemma mkMessages_users_erase (w : List WalletRec) (us1 us2 : List UserRec)
    (image message : Text) (accs : List Text) :
    (mkMessages ⟨w, us1⟩ image message accs).map eraseMsgPriority =
      (mkMessages ⟨w, us2⟩ image message accs).map eraseMsgPriority := by
  unfold mkMessages
  simp only [List.map_map]
  apply List.map_congr_left
  intro u _
  rfl

lemma create_message_users_erase (ti : Text → Option TokenInfo)
    (tp : Text → Option ℚ) (fmtNum : ℚ → Text) (imgOf : List Event → Text)
    (w : List WalletRec) (us1 us2 : List UserRec) (data : List Event) :
    (create_message ti tp fmtNum imgOf ⟨w, us1⟩ data).map eraseMsgPriority =
      (create_message ti tp fmtNum imgOf ⟨w, us2⟩ data).map eraseMsgPriority := by
  unfold create_message create_message_core
  cases hp : create_message_pre ti tp fmtNum data with
  | error e => rfl
  | ok p =>
    rw [ok_bind, ok_bind]
    exact mkMessages_users_erase w us1 us2 (imgOf data) p.1 p.2

lemma processOne_erase_congr (st : Text → Bool) (fo : Text → Text → Bool)
    (po : Text → Bool) (sig ty : Text) (m1 m2 : Msg)
    (h : eraseMsgPriority m1 = eraseMsgPriority m2) :
    (processOne st fo po sig ty m1).map erasePriority =
      (processOne st fo po sig ty m2).map erasePriority := by
  cases m1 with
  | mk u1 t1 i1 p1 =>
    cases m2 with
    | mk u2 t2 i2 p2 =>
      simp only [eraseMsgPriority, Msg.mk.injEq] at h
      obtain ⟨h1, h2, h3, _⟩ := h
      subst h1
      subst h2
      subst h3
      by_cases hst : st u1 = true
      · simp [processOne, hst, erasePriority]
      · simp [processOne, hst]

lemma processMessages_erase_congr (st : Text → Bool) (fo : Text → Text → Bool)
    (po : Text → Bool) (sig ty : Text) :
    ∀ (l1 l2 : List Msg), l1.map eraseMsgPriority = l2.map eraseMsgPriority →
      (processMessages st fo po sig ty l1).map erasePriority =
        (processMessages st fo po sig ty l2).map erasePriority := by
  intro l1
  induction l1 with
  | nil =>
    intro l2 h
    have : l2 = [] := by
      cases l2 with
      | nil => rfl
      | cons b bs => simp at h
    subst this
    rfl
  | cons m ms ih =>
    intro l2 h
    cases l2 with
    | nil => simp at h
    | cons m2 ms2 =>
      simp only [List.map_cons, List.cons.injEq] at h
      unfold processMessages
      rw [List.flatMap_cons, List.flatMap_cons, List.map_append, List.map_append]
      rw [processOne_erase_congr st fo po sig ty m m2 h.1]
      have := ih ms2 h.2
      unfold processMessages at this
      rw [this]

lemma filter_send_of_erase_eq :
    ∀ (t1 t2 : List Act), t1.map erasePriority = t2.map erasePriority →
      t1.filter isSendAct = t2.filter isSendAct := by
  intro t1
  induction t1 with
  | nil =>
    intro t2 h
    cases t2 with
    | nil => rfl
    | cons b bs => simp at h
  | cons a as ih =>
    intro t2 h
    cases t2 with
    | nil => simp at h
    | cons b bs =>
      simp only [List.map_cons, List.cons.injEq] at h
      rw [List.filter_cons, List.filter_cons, ih bs h.2]
      cases a with
      | store u t p sig ty =>
        cases b with
        | store u' t' p' sig' ty' => simp [isSendAct, isSendTextAct, isSendPhotoAct]
        | sendPhoto u' t' i' => simp [erasePriority] at h
        | sendText u' t' => simp [erasePriority] at h
      | sendPhoto u t i =>
        cases b with
        | store u' t' p' sig' ty' => simp [erasePriority] at h
        | sendPhoto u' t' i' =>
          have hb : Act.sendPhoto u t i = Act.sendPhoto u' t' i' := h.1
          rw [hb]
        | sendText u' t' => simp [erasePriority] at h
      | sendText u t =>
        cases b with
        | store u' t' p' sig' ty' => simp [erasePriority] at h
        | sendPhoto u' t' i' => simp [erasePriority] at h
        | sendText u' t' =>
          have hb : Act.sendText u t = Act.sendText u' t' := h.1
          rw [hb]

/-- Claim C10: the premium flag never influences what is delivered — for
any two `users` collections (hence any premium status assignment) over the
same wallets, the webhook run produces the same status and count, traces
that agree once the persisted priority field is erased (so texts, images
and the photo/plain-text choice coincide act by act, and no visual marker
is prepended), and identical transport actions. -/
theorem c10_priority_noninterference (ti : Text → Option TokenInfo)
    (tp : Text → Option ℚ) (fmtNum : ℚ → Text) (imgOf : List Event → Text)
    (w : List WalletRec) (us1 us2 : List UserRec) (st : Text → Bool)
    (fo : Text → Text → Bool) (po : Text → Bool) (body : Option (List Event)) :
    (handle_webhook ti tp fmtNum imgOf ⟨w, us1⟩ st fo po body).1 =
      (handle_webhook ti tp fmtNum imgOf ⟨w, us2⟩ st fo po body).1 ∧
      (handle_webhook ti tp fmtNum imgOf ⟨w, us1⟩ st fo po body).2.1 =
        (handle_webhook ti tp fmtNum imgOf ⟨w, us2⟩ st fo po body).2.1 ∧
      (handle_webhook ti tp fmtNum imgOf ⟨w, us1⟩ st fo po body).2.2.map
          erasePriority =
        (handle_webhook ti tp fmtNum imgOf ⟨w, us2⟩ st fo po body).2.2.map
          erasePriority ∧
      (handle_webhook ti tp fmtNum imgOf ⟨w, us1⟩ st fo po body).2.2.filter
          isSendAct =
        (handle_webhook ti tp fmtNum imgOf ⟨w, us2⟩ st fo po body).2.2.filter
          isSendAct := by
  cases body with
  | none => exact ⟨rfl, rfl, rfl, rfl⟩
  | some data =>
    cases data with
    | nil => exact ⟨rfl, rfl, rfl, rfl⟩
    | cons e0 rest =>
      have hmsgs := create_message_users_erase ti tp fmtNum imgOf w us1 us2
        (e0 :: rest)
      have htr := processMessages_erase_congr st fo po
        (e0.signature.getD []) (e0.type.getD []) _ _ hmsgs
      refine ⟨rfl, ?_, htr, filter_send_of_erase_eq _ _ htr⟩
      show (create_message ti tp fmtNum imgOf ⟨w, us1⟩ (e0 :: rest)).length = _
      rw [← List.length_map (create_message ti tp fmtNum imgOf ⟨w, us1⟩
        (e0 :: rest)) eraseMsgPriority, hmsgs, List.length_map]
      rfl

end BullxBot
